import Mathlib

/-!
Shallow embedding of the vixcpp/async runtime core, translated from the
C++ sources under src/:

- include/vix/async/core/error.hpp    (error taxonomy)
- include/vix/async/core/task.hpp     (task promise, awaiter)
- include/cnerium/core/scheduler.hpp  (FIFO run queue)
- include/vix/async/core/thread_pool.hpp, src/core/thread_pool.cpp
- include/vix/async/core/when.hpp     (when_all / when_any)
- src/core/signal.cpp                 (signal_set)
- src/core/timer.cpp                  (timer worker loop)

Exceptions are modelled as first-class values (identity = equality of the
model value); machine integers index values stay in Nat/Int since no
overflow-sensitive arithmetic occurs in the modelled code paths.
-/

namespace VixAsync

/-! ## Error taxonomy (error.hpp) -/

/-- The errc enumeration from error.hpp, declaration order preserved so that
the underlying numeric codes match the C++ values 0..10. -/
inductive Errc where
  | ok
  | invalid_argument
  | not_ready
  | timeout
  | canceled
  | closed
  | overflow
  | stopped
  | queue_full
  | rejected
  | not_supported
deriving DecidableEq, Repr

/-- Numeric value of an errc constant (static_cast<int>(e) on the uint8 enum). -/
def Errc.toCode : Errc → Nat
  | .ok => 0
  | .invalid_argument => 1
  | .not_ready => 2
  | .timeout => 3
  | .canceled => 4
  | .closed => 5
  | .overflow => 6
  | .stopped => 7
  | .queue_full => 8
  | .rejected => 9
  | .not_supported => 10

/-- A std::error_code value: an integer code paired with a category name. -/
structure ErrorCode where
  code : Nat
  category : String
deriving DecidableEq, Repr

/-- make_error_code(errc) from error.hpp: the numeric value of e in the
"async" category. -/
def make_error_code (e : Errc) : ErrorCode :=
  ⟨e.toCode, "async"⟩

/-- cancelled_ec() from cancel.hpp: make_error_code(errc::canceled). -/
def cancelled_ec : ErrorCode :=
  make_error_code .canceled

/-- A C++ exception value. Identity of exceptions is equality of the model
value: a user exception is tagged, and std::system_error carries its
error_code. -/
inductive Exn where
  | userExn (tag : Nat)
  | systemError (ec : ErrorCode)
deriving DecidableEq, Repr

/-! ## Task (task.hpp) -/

/-- Outcome of running a coroutine body to completion: either co_return v
(routed through promise_value::return_value) or an exception escaping the
body (routed through promise_common::unhandled_exception). -/
inductive BodyOutcome (T : Type u) where
  | ret (v : T)
  | thr (e : Exn)
deriving DecidableEq

/-- The exception an outcome raised, if any. -/
def BodyOutcome.exn? : BodyOutcome T → Option Exn
  | .ret _ => none
  | .thr e => some e

/-- The value an outcome produced, if any. -/
def BodyOutcome.val? : BodyOutcome T → Option T
  | .ret v => some v
  | .thr _ => none

/-- The result-carrying part of promise_value<T> after the frame completed:
the exception slot written by unhandled_exception and the std::optional<T>
value slot written by return_value. (For task<void> the value slot is absent;
instantiate T with Unit.) -/
structure Promise (T : Type u) where
  exception : Option Exn
  value : Option T

/-- State of the promise after the coroutine body finished with outcome o:
return_value emplaces the value, unhandled_exception captures the current
exception; exactly one of the two happens. -/
def run_body (o : BodyOutcome T) : Promise T :=
  match o with
  | .ret v => ⟨none, some v⟩
  | .thr e => ⟨some e, none⟩

/-- task_awaiter::await_resume (task.hpp lines 111-127): if the promise
captured an exception it is rethrown (modelled as Except.error with the same
exception value), otherwise the value is moved out of the optional value
slot (the Option in the ok payload models the moved-from std::optional read,
guarded in the source by an assert that it holds a value). -/
def task_await_resume (p : Promise T) : Except Exn (Option T) :=
  match p.exception with
  | some e => .error e
  | none => .ok p.value

/-! ## Scheduler (cnerium/core/scheduler.hpp) -/

/-- A job posted to the scheduler queue, tagged with the id of the posting
thread and an observable payload. -/
structure sched_job where
  tid : Nat
  val : Nat
deriving DecidableEq, Repr

/-- Scheduler state: the FIFO deque q_ and the stop_requested_ flag, both
protected by one mutex in the source. -/
structure Sched where
  q : List sched_job
  stop_requested : Bool
deriving DecidableEq, Repr

/-- scheduler::post (scheduler.hpp lines 20-34): under the lock, append the
job at the tail of the deque (q_.emplace_back). -/
def Sched.post (s : Sched) (j : sched_job) : Sched :=
  { s with q := s.q ++ [j] }

/-- A sequence of post calls in the order the queue mutex serialized them
(posts from several threads interleave arbitrarily in this list). -/
def post_all (s : Sched) (events : List sched_job) : Sched :=
  events.foldl Sched.post s

/-- The run() loop (scheduler.hpp lines 61-90) viewed from the queue: each
iteration waits until stop_requested or the queue is non-empty, pops the
front job and executes it outside the lock; when the queue is empty it
breaks if stop was requested, else blocks on the condition variable (with no
further posters this never returns, modelled as none). Returns the list of
executed jobs in dequeue order. -/
def run_queue : List sched_job → Bool → Option (List sched_job)
  | [], true => some []
  | [], false => none
  | j :: rest, st => (run_queue rest st).map (fun l => j :: l)

/-- scheduler::run on the current queue state. -/
def Sched.run (s : Sched) : Option (List sched_job) :=
  run_queue s.q s.stop_requested

/-! ## Thread pool (thread_pool.hpp / thread_pool.cpp) -/

/-- Outcome of the worker-side lambda enqueued by thread_pool::submit
(thread_pool.hpp lines 84-110): whether fn was invoked, the captured
exception slot ex, and the result_store slot. -/
structure SubmitOutcome (R : Type u) where
  invoked : Bool
  ex : Option Exn
  store : Option R

/-- The body of the lambda run on a pool worker: if the cancel token is
observed cancelled, throw std::system_error(cancelled_ec()) before calling
fn; otherwise run fn, storing its value or capturing its exception. The
cancelled argument is ct.is_cancelled() as read by the worker; fn is the
user callable given by its outcome. -/
def submit_work (cancelled : Bool) (fn : BodyOutcome R) : SubmitOutcome R :=
  if cancelled then
    ⟨false, some (.systemError cancelled_ec), none⟩
  else
    match fn with
    | .ret v => ⟨true, none, some v⟩
    | .thr e => ⟨true, some e, none⟩

/-- awaitable::await_resume in thread_pool::submit (lines 112-125): rethrow
the captured exception if any, else take the stored value. -/
def submit_await_resume (o : SubmitOutcome R) : Except Exn (Option R) :=
  match o.ex with
  | some e => .error e
  | none => .ok o.store

/-- The constructor clamp in thread_pool.cpp lines 20-32: a requested count
of 0 (hardware_concurrency may report 0) becomes 1. -/
def clamp_threads (threads : Nat) : Nat :=
  if threads = 0 then 1 else threads

/-- Worker threads spawned by the thread_pool constructor, one per clamped
count. -/
structure ThreadPool where
  workers : List Nat
deriving DecidableEq, Repr

/-- thread_pool::thread_pool (thread_pool.cpp lines 20-32): clamp the count,
then emplace one worker thread per index. -/
def mk_thread_pool (threads : Nat) : ThreadPool :=
  ⟨List.range (clamp_threads threads)⟩

/-- thread_pool::size(): workers_.size(). -/
def ThreadPool.size (p : ThreadPool) : Nat :=
  p.workers.length

/-- worker_loop (thread_pool.cpp lines 72-105) once stop has been requested
and the queue is fixed: pop the front job, run it, repeat until the queue is
empty, then exit. Returns the executed jobs in order. -/
def worker_drain : List Nat → List Nat
  | [] => []
  | j :: rest => j :: worker_drain rest

/-- Jobs executed by the pool: with no workers nothing would ever run; with
at least one worker the queued jobs are drained FIFO. -/
def ThreadPool.exec (p : ThreadPool) (jobs : List Nat) : List Nat :=
  if p.workers = [] then [] else worker_drain jobs

/-! ## when_all / when_any (when.hpp)

The N child tasks are heterogeneous; slot i has logical type sigma i, with
task<void> slots instantiated at Unit (std::monostate is the unit value, so
stored_t<void> = optional<monostate> becomes Option Unit). Child i runs to
completion with outcome out i; runners complete in some order given as a
list of indices (the completion order produced by the scheduler), each
runner performing the body of when_all_runner / when_any_runner after its
co_await finished. -/

universe u

variable {n : Nat} {sigma : Fin n → Type u}

/-- Shared state of when_all (when.hpp lines 184-192): the remaining
counter, the first-exception slot and the tuple of stored result slots. -/
structure WhenAllState (n : Nat) (sigma : Fin n → Type u) where
  remaining : Nat
  first_ex : Option Exn
  results : (i : Fin n) → Option (sigma i)
  posted : Bool

/-- Initial when_all state: remaining = N, no exception, empty slots,
continuation not yet posted. -/
def when_all_init (n : Nat) (sigma : Fin n → Type u) : WhenAllState n sigma :=
  ⟨n, none, fun _ => none, false⟩

/-- The tail of when_all_runner (when.hpp lines 207-238) once child i
finished with outcome o: on success store the value into slot i (store_into;
for void the stored value is monostate, here the unit value of sigma i); on
exception set first_ex only if it is still empty; then decrement remaining
with fetch_sub, and if this runner was the last one, post the parent
continuation. -/
def when_all_step (st : WhenAllState n sigma) (i : Fin n) (o : BodyOutcome (sigma i)) :
    WhenAllState n sigma :=
  let st1 :=
    match o with
    | .ret v => { st with results := Function.update st.results i (some v) }
    | .thr e => { st with first_ex := st.first_ex.orElse fun _ => some e }
  { st1 with
    remaining := st1.remaining - 1
    posted := st1.posted || (st1.remaining == 1) }

/-- All runners completing in the given order, each exactly once in a real
execution, starting from the fresh shared state. -/
def when_all_run (out : (i : Fin n) → BodyOutcome (sigma i)) (order : List (Fin n)) :
    WhenAllState n sigma :=
  order.foldl (fun st i => when_all_step st i (out i)) (when_all_init n sigma)

/-- when_all_awaitable::await_resume (when.hpp lines 279-284): rethrow the
first captured exception if any, else materialize the result tuple. The ok
payload is the tuple of stored slots; materialize_tuple moves each slot out
positionally (void slots yield monostate, i.e. the unit value). -/
def when_all_resume (st : WhenAllState n sigma) :
    Except Exn ((i : Fin n) → Option (sigma i)) :=
  match st.first_ex with
  | some e => .error e
  | none => .ok st.results

/-- Shared state of when_any (when.hpp lines 323-332): the done CAS flag,
the exception slot, the winning index (size_t(-1) sentinel modelled as
none) and the stored result slots. -/
structure WhenAnyState (n : Nat) (sigma : Fin n → Type u) where
  done : Bool
  ex : Option Exn
  index : Option (Fin n)
  results : (i : Fin n) → Option (sigma i)
  posted : Bool

/-- Initial when_any state. -/
def when_any_init (n : Nat) (sigma : Fin n → Type u) : WhenAnyState n sigma :=
  ⟨false, none, none, fun _ => none, false⟩

/-- The tail of when_any_runner (when.hpp lines 347-380) once child i
finished with outcome o: on success store into slot i; on exception set ex
only if still empty; then compare_exchange_strong on done with expected
false: the winner records its index and posts the parent continuation,
losers do nothing further. -/
def when_any_step (st : WhenAnyState n sigma) (i : Fin n) (o : BodyOutcome (sigma i)) :
    WhenAnyState n sigma :=
  let st1 :=
    match o with
    | .ret v => { st with results := Function.update st.results i (some v) }
    | .thr e => { st with ex := st.ex.orElse fun _ => some e }
  if st1.done then st1
  else { st1 with done := true, index := some i, posted := true }

/-- Runners completing in the given order (the completion order of the
children that finished before the parent resumption ran), starting from the
fresh shared state. -/
def when_any_run (out : (i : Fin n) → BodyOutcome (sigma i)) (order : List (Fin n)) :
    WhenAnyState n sigma :=
  order.foldl (fun st i => when_any_step st i (out i)) (when_any_init n sigma)

/-- when_any_awaitable::await_resume (when.hpp lines 424-430): rethrow the
captured exception if the slot is set, else return the winning index and
the stored slots. -/
def when_any_resume (st : WhenAnyState n sigma) :
    Except Exn (Option (Fin n) × ((i : Fin n) → Option (sigma i))) :=
  match st.ex with
  | some e => .error e
  | none => .ok (st.index, st.results)

/-- The first exception captured in completion order: the runner catch
blocks fill the shared exception slot only when it is still empty, so the
slot ends up holding the first thrown exception in that order. -/
def first_exn (out : (i : Fin n) → BodyOutcome (sigma i)) (order : List (Fin n)) :
    Option Exn :=
  order.findSome? fun i => (out i).exn?

/-! ## Signal set (signal.cpp) -/

/-- signal_set fields relevant to delivery (signal.hpp): the pending FIFO of
unclaimed signal numbers and the registered waiter. waiterSig is the sig
field of the suspended waiter coroutine frame awaitable, 0 at suspension
(signal.cpp line 91). -/
structure SignalSt where
  pending : List Int
  waiterActive : Bool
  waiterSig : Int
deriving DecidableEq, Repr

/-- A fresh signal_set with no buffered signals and no waiter. -/
def signal_init : SignalSt :=
  ⟨[], false, 0⟩

/-- Result of starting async_wait with a non-cancelled token
(signal.cpp lines 93-127): if the pending FIFO is non-empty the awaitable
pops the front signal into its sig field and reports ready, so the task
produces that number at once; otherwise the frame suspends and registers
itself as the waiter, its sig field still 0. (await_suspend re-checks
pending under the same mutex; sequentially the two checks coincide.) -/
inductive WaitStart where
  | ready (sig : Int) (st : SignalSt)
  | suspended (st : SignalSt)
deriving DecidableEq, Repr

/-- async_wait entry for a non-cancelled token. -/
def async_wait_start (st : SignalSt) : WaitStart :=
  match st.pending with
  | s :: rest => .ready s { st with pending := rest }
  | [] => .suspended { st with waiterActive := true, waiterSig := 0 }

/-- Result of the posted delivery step: the new signal_set state and, if a
waiter was resumed, the int its await_resume produced. -/
structure DeliveryResult where
  st : SignalSt
  resumed : Option Int
deriving DecidableEq, Repr

/-- Worker delivery of one signal (signal.cpp lines 180-230): the worker
pushes the received number onto pending and posts a lambda; the lambda pops
the front of pending, then, if a waiter is registered, pushes that number
back onto pending and resumes the waiter, whose await_resume (line 129-135,
token not cancelled) returns the sig field captured at suspension; with no
waiter the popped number is pushed back onto pending. -/
def deliver_signal (st : SignalSt) (received : Int) : DeliveryResult :=
  let st1 : SignalSt := { st with pending := st.pending ++ [received] }
  match st1.pending with
  | [] => ⟨st1, none⟩
  | s :: rest =>
    if st1.waiterActive then
      ⟨⟨rest ++ [s], false, 0⟩, some st.waiterSig⟩
    else
      ⟨{ st1 with pending := rest ++ [s] }, none⟩

/-- The int produced by an async_wait that starts on the given state, when
the next event is the worker receiving signal number received: the
buffered path produces the popped front immediately; the suspended path
produces whatever the resumed waiter awaitable returns. -/
def await_then_deliver (st : SignalSt) (received : Int) : Option Int :=
  match async_wait_start st with
  | .ready s _ => some s
  | .suspended st1 => (deliver_signal st1 received).resumed

/-! ## Timer (timer.cpp) -/

/-- A timer queue entry (timer.hpp): deadline, tie-breaking id, and the
cancel token observation at firing time (cancellation is monotonic; the
flag is the value is_cancelled() returns when the worker checks it at
line 159). The job itself is identified by the entry. -/
structure TimerEntry where
  dl : Nat
  id : Nat
  cancelled : Bool
deriving DecidableEq, Repr

/-- Ordering of the std::multiset of entries: by (deadline, id)
lexicographically, matching entry::operator< in timer.hpp. -/
def entry_le (a b : TimerEntry) : Bool :=
  a.dl < b.dl || (a.dl == b.dl && a.id ≤ b.id)

/-- q_.begin() on the multiset: the least entry under (deadline, id), and
the rest of the queue. -/
def select_min : List TimerEntry → Option (TimerEntry × List TimerEntry)
  | [] => none
  | e :: rest =>
    match select_min rest with
    | none => some (e, [])
    | some (m, rest1) =>
      if entry_le e m then some (e, rest) else some (m, e :: rest1)

/-- The entry scheduled by timer::after(d, fn, ct) called at steady-clock
time now0 (timer.hpp: schedule(clock::now() + d, ...)); sleep_for(d) with
d > 0 goes through after with the resumption of the sleeping frame as fn. -/
def after_entry (now0 d id : Nat) (c : Bool) : TimerEntry :=
  ⟨now0 + d, id, c⟩

/-- The entry the timer worker holds, or else the earliest queued entry
(q_.begin), with the rest of the queue. -/
def timer_pick (cur : Option TimerEntry) (q : List TimerEntry) :
    Option (TimerEntry × List TimerEntry) :=
  match cur with
  | some e => some (e, q)
  | none => select_min q

/-- timer_loop (timer.cpp lines 101-173) driven by the successive values
the steady clock returns (one clock read per loop iteration) over a fixed
set of scheduled entries. The first argument is the remaining clock reads;
exhausting them models stop_ being set (the loop then returns without
posting). cur is the entry currently held by the worker (none while the
worker is about to pick the earliest entry). Output: the list of
(clock value at posting, entry) pairs for every job posted to the
scheduler; timer_pick is the step taking the held entry or else the
earliest queued one. Per iteration: with an entry in hand and clock read t, if
t >= entry deadline the inner wait loop breaks and the entry is posted
unless its token is cancelled; otherwise, if the queue now holds an entry
with an earlier deadline, the held entry is reinserted and the earlier one
is taken; otherwise the worker waits on the condition variable until the
deadline and re-checks. -/
def timer_run : List Nat → Option TimerEntry → List TimerEntry → List (Nat × TimerEntry)
  | [], _, _ => []
  | t :: ts, cur, q =>
    match timer_pick cur q with
    | none => []
    | some (e, rest) =>
      if e.dl ≤ t then
        if e.cancelled then timer_run ts none rest
        else (t, e) :: timer_run ts none rest
      else
        match select_min rest with
        | some (m, rest1) =>
          if m.dl < e.dl then timer_run ts (some m) (e :: rest1)
          else timer_run ts (some e) rest
        | none => timer_run ts (some e) rest

/-! ## Helper lemmas -/

theorem when_all_foldl_first_ex (out : (i : Fin n) → BodyOutcome (sigma i)) :
    ∀ (order : List (Fin n)) (st : WhenAllState n sigma),
      (order.foldl (fun st i => when_all_step st i (out i)) st).first_ex
        = st.first_ex.orElse fun _ => first_exn out order := by
  intro order
  induction order with
  | nil =>
    intro st
    cases h : st.first_ex <;> simp [first_exn, Option.orElse, h]
  | cons i tl ih =>
    intro st
    rw [List.foldl_cons, ih]
    cases ho : out i with
    | ret v =>
      have hstep : (when_all_step st i (BodyOutcome.ret v)).first_ex = st.first_ex := by
        simp [when_all_step]
      rw [hstep]
      have hfe : first_exn out (i :: tl) = first_exn out tl := by
        simp [first_exn, List.findSome?_cons, ho, BodyOutcome.exn?]
      rw [hfe]
    | thr e =>
      have hstep : (when_all_step st i (BodyOutcome.thr e)).first_ex
          = st.first_ex.orElse fun _ => some e := by
        simp [when_all_step]
      rw [hstep]
      have hfe : first_exn out (i :: tl) = some e := by
        simp [first_exn, List.findSome?_cons, ho, BodyOutcome.exn?]
      rw [hfe]
      cases h : st.first_ex <;> simp [Option.orElse, h]

theorem when_all_foldl_results_not_mem (out : (i : Fin n) → BodyOutcome (sigma i)) :
    ∀ (order : List (Fin n)) (st : WhenAllState n sigma) (j : Fin n),
      j ∉ order →
      (order.foldl (fun st i => when_all_step st i (out i)) st).results j
        = st.results j := by
  intro order
  induction order with
  | nil => intro st j _; rfl
  | cons i tl ih =>
    intro st j hj
    rw [List.mem_cons, not_or] at hj
    rw [List.foldl_cons, ih _ _ hj.2]
    cases ho : out i with
    | ret v => simp [when_all_step, ho, Function.update_noteq hj.1]
    | thr e => simp [when_all_step, ho]

theorem when_all_foldl_results_ret (out : (i : Fin n) → BodyOutcome (sigma i)) :
    ∀ (order : List (Fin n)) (st : WhenAllState n sigma) (j : Fin n)
      (v : sigma j), j ∈ order → out j = .ret v →
      (order.foldl (fun st i => when_all_step st i (out i)) st).results j
        = some v := by
  intro order
  induction order with
  | nil => intro st j v hj _; cases hj
  | cons i tl ih =>
    intro st j v hj ho
    rw [List.foldl_cons]
    by_cases hjt : j ∈ tl
    · exact ih _ j v hjt ho
    · have hij : j = i := by
        rcases List.mem_cons.mp hj with h | h
        · exact h
        · exact absurd h hjt
      subst hij
      rw [when_all_foldl_results_not_mem out tl _ j hjt]
      simp [when_all_step, ho, Function.update_same]

theorem first_exn_eq_none (out : (i : Fin n) → BodyOutcome (sigma i))
    (order : List (Fin n)) (h : ∀ i : Fin n, (out i).exn? = none) :
    first_exn out order = none := by
  induction order with
  | nil => rfl
  | cons i tl ih => simp [first_exn, List.findSome?_cons, h i] at ih ⊢; exact ih

theorem when_any_foldl_ex (out : (i : Fin n) → BodyOutcome (sigma i)) :
    ∀ (order : List (Fin n)) (st : WhenAnyState n sigma),
      (order.foldl (fun st i => when_any_step st i (out i)) st).ex
        = st.ex.orElse fun _ => first_exn out order := by
  intro order
  induction order with
  | nil =>
    intro st
    cases h : st.ex <;> simp [first_exn, Option.orElse, h]
  | cons i tl ih =>
    intro st
    rw [List.foldl_cons, ih]
    cases ho : out i with
    | ret v =>
      have hstep : (when_any_step st i (BodyOutcome.ret v)).ex = st.ex := by
        simp only [when_any_step]
        split <;> rfl
      rw [hstep]
      have hfe : first_exn out (i :: tl) = first_exn out tl := by
        simp [first_exn, List.findSome?_cons, ho, BodyOutcome.exn?]
      rw [hfe]
    | thr e =>
      have hstep : (when_any_step st i (BodyOutcome.thr e)).ex
          = st.ex.orElse fun _ => some e := by
        simp only [when_any_step]
        split <;> rfl
      rw [hstep]
      have hfe : first_exn out (i :: tl) = some e := by
        simp [first_exn, List.findSome?_cons, ho, BodyOutcome.exn?]
      rw [hfe]
      cases h : st.ex <;> simp [Option.orElse, h]

theorem when_any_foldl_done_index (out : (i : Fin n) → BodyOutcome (sigma i)) :
    ∀ (order : List (Fin n)) (st : WhenAnyState n sigma),
      st.done = true →
      (order.foldl (fun st i => when_any_step st i (out i)) st).done = true ∧
      (order.foldl (fun st i => when_any_step st i (out i)) st).index = st.index := by
  intro order
  induction order with
  | nil => intro st h; exact ⟨h, rfl⟩
  | cons i tl ih =>
    intro st h
    rw [List.foldl_cons]
    have hstep : (when_any_step st i (out i)).done = true ∧
        (when_any_step st i (out i)).index = st.index := by
      cases ho : out i <;> simp [when_any_step, ho, h]
    rcases ih (when_any_step st i (out i)) hstep.1 with ⟨h1, h2⟩
    exact ⟨h1, h2.trans hstep.2⟩

theorem when_any_foldl_results_not_mem (out : (i : Fin n) → BodyOutcome (sigma i)) :
    ∀ (order : List (Fin n)) (st : WhenAnyState n sigma) (j : Fin n),
      j ∉ order →
      (order.foldl (fun st i => when_any_step st i (out i)) st).results j
        = st.results j := by
  intro order
  induction order with
  | nil => intro st j _; rfl
  | cons i tl ih =>
    intro st j hj
    rw [List.mem_cons, not_or] at hj
    rw [List.foldl_cons, ih _ _ hj.2]
    cases ho : out i with
    | ret v =>
      simp only [when_any_step, ho]
      split <;> simp [Function.update_noteq hj.1]
    | thr e =>
      simp only [when_any_step, ho]
      split <;> rfl

theorem run_queue_drains (events : List sched_job) :
    run_queue events true = some events := by
  induction events with
  | nil => rfl
  | cons j rest ih => simp [run_queue, ih]

theorem post_all_q (events : List sched_job) :
    ∀ s : Sched, (post_all s events).q = s.q ++ events ∧
      (post_all s events).stop_requested = s.stop_requested := by
  induction events with
  | nil => intro s; simp [post_all]
  | cons j rest ih =>
    intro s
    have := ih (s.post j)
    simpa [post_all, Sched.post, List.append_assoc] using this

theorem timer_run_dl_le :
    ∀ (samples : List Nat) (cur : Option TimerEntry) (q : List TimerEntry)
      (t : Nat) (e : TimerEntry), (t, e) ∈ timer_run samples cur q → e.dl ≤ t := by
  intro samples
  induction samples with
  | nil => intro cur q t e h; simp [timer_run] at h
  | cons s ts ih =>
    intro cur q t e h
    rw [timer_run] at h
    rcases hsel : timer_pick cur q with _ | ⟨e1, rest⟩
    · rw [hsel] at h; simp at h
    · rw [hsel] at h
      simp only at h
      by_cases hdl : e1.dl ≤ s
      · rw [if_pos hdl] at h
        by_cases hc : e1.cancelled = true
        · rw [if_pos hc] at h
          exact ih _ _ _ _ h
        · rw [if_neg hc] at h
          rcases List.mem_cons.mp h with heq | hmem
          · cases heq
            exact hdl
          · exact ih _ _ _ _ hmem
      · rw [if_neg hdl] at h
        rcases hsel2 : select_min rest with _ | ⟨m, rest1⟩
        · rw [hsel2] at h
          exact ih _ _ _ _ h
        · rw [hsel2] at h
          simp only at h
          by_cases hm : m.dl < e1.dl
          · rw [if_pos hm] at h
            exact ih _ _ _ _ h
          · rw [if_neg hm] at h
            exact ih _ _ _ _ h

theorem worker_drain_id : ∀ jobs : List Nat, worker_drain jobs = jobs := by
  intro jobs
  induction jobs with
  | nil => rfl
  | cons j rest ih => simp [worker_drain, ih]

/-! ## Claim theorems -/

/-- C1: for every task coroutine awaited exactly once after its body
completed, await_resume produces exactly the value the body returned, moved
out of the value slot, or rethrows the identical exception the body raised
and unhandled_exception captured. -/
theorem task_value_or_exception {T : Type u} (o : BodyOutcome T) :
    task_await_resume (run_body o) =
      match o with
      | .ret v => .ok (some v)
      | .thr e => .error e := by
  cases o <;> rfl

/-- C2: for a when_all over N tasks in which no child throws, resuming
produces the tuple whose i-th slot holds exactly the i-th child result
(positional, for every completion order covering all children); void slots
(sigma i = Unit) hold the unit value, the image of std::monostate. -/
theorem when_all_positional_results
    (out : (i : Fin n) → BodyOutcome (sigma i)) (order : List (Fin n))
    (hcover : ∀ i : Fin n, i ∈ order)
    (hnothrow : ∀ i : Fin n, (out i).exn? = none) :
    when_all_resume (when_all_run out order) = .ok (fun i => (out i).val?) ∧
    ∀ i : Fin n, ((out i).val?).isSome := by
  have hex : (when_all_run out order).first_ex = none := by
    rw [when_all_run, when_all_foldl_first_ex, first_exn_eq_none out order hnothrow]
    rfl
  constructor
  · rw [when_all_resume]
    rw [hex]
    refine congrArg Except.ok (funext fun i => ?_)
    cases ho : out i with
    | ret v =>
      rw [when_all_run] at hex ⊢
      rw [when_all_foldl_results_ret out order _ i v (hcover i) ho]
      simp [BodyOutcome.val?]
    | thr e =>
      have := hnothrow i
      rw [ho] at this
      simp [BodyOutcome.exn?] at this
  · intro i
    cases ho : out i with
    | ret v => simp [BodyOutcome.val?]
    | thr e =>
      have := hnothrow i
      rw [ho] at this
      simp [BodyOutcome.exn?] at this

/-- Slot types of a two-child when_all used as the C2 witness: a task<Nat>
and a task<void> (slot type Unit, the image of std::monostate). -/
def sigma2 : Fin 2 → Type :=
  Fin.cases Nat (fun _ => Unit)

/-- Child outcomes for the witness: child 0 returns 10, child 1 (void)
completes normally. -/
def out2 : (i : Fin 2) → BodyOutcome (sigma2 i) :=
  Fin.cases (motive := fun i => BodyOutcome (sigma2 i))
    (BodyOutcome.ret (10 : Nat)) (fun _ => BodyOutcome.ret ())

/-- C2 witness: the two-child when_all above, children completing in order
0 then 1. -/
theorem when_all_positional_results_witness :
    ((∀ i : Fin 2, i ∈ ([0, 1] : List (Fin 2))) ∧
      ∀ i : Fin 2, (out2 i).exn? = none) ∧
    when_all_resume (when_all_run out2 [0, 1]) = .ok (fun i => (out2 i).val?) ∧
    ∀ i : Fin 2, ((out2 i).val?).isSome :=
  ⟨⟨by decide, by decide⟩,
    when_all_positional_results out2 [0, 1] (by decide) (by decide)⟩

/-- C3: for a when_all whose children all complete (order covers every
index) and at least one throws, resume rethrows exactly one exception, the
one captured first by the shared state (the first thrown in completion
order, because each catch block fills first_ex only while it is empty);
later exceptions are dropped. -/
theorem when_all_rethrows_first_captured
    (out : (i : Fin n) → BodyOutcome (sigma i)) (order : List (Fin n))
    (_hcover : ∀ i : Fin n, i ∈ order) (e : Exn)
    (hfirst : first_exn out order = some e) :
    when_all_resume (when_all_run out order) = .error e := by
  have hex : (when_all_run out order).first_ex = some e := by
    rw [when_all_run, when_all_foldl_first_ex, hfirst]
    rfl
  rw [when_all_resume, hex]

/-- C3 witness: both children of a two-task when_all throw; the completion
ordering is 0 then 1 and the exception of child 0 is the one rethrown. -/
theorem when_all_rethrows_first_captured_witness :
    ((∀ i : Fin 2, i ∈ ([0, 1] : List (Fin 2))) ∧
      first_exn (fun _ : Fin 2 => (BodyOutcome.thr (.userExn 5) : BodyOutcome Nat)) [0, 1]
        = some (.userExn 5)) ∧
    when_all_resume (when_all_run
        (fun _ : Fin 2 => (BodyOutcome.thr (.userExn 5) : BodyOutcome Nat)) [0, 1])
      = .error (.userExn 5) :=
  ⟨⟨by decide, by decide⟩,
    when_all_rethrows_first_captured _ [0, 1] (by decide) (.userExn 5) (by decide)⟩

/-- C4: for a when_any whose children complete in the order j :: rest (each
runner completing once), the winning index recorded by the single
compare-and-swap on done is j, the first completer, and when child j
completed with a value its result slot is populated with that value. -/
theorem when_any_winner_index_and_slot
    (out : (i : Fin n) → BodyOutcome (sigma i)) (j : Fin n) (rest : List (Fin n))
    (honce : j ∉ rest) :
    (when_any_run out (j :: rest)).index = some j ∧
    ∀ v : sigma j, out j = .ret v →
      (when_any_run out (j :: rest)).results j = some v := by
  constructor
  · rw [when_any_run, List.foldl_cons]
    have h1 : (when_any_step (when_any_init n sigma) j (out j)).done = true ∧
        (when_any_step (when_any_init n sigma) j (out j)).index = some j := by
      cases ho : out j <;> simp [when_any_step, when_any_init]
    rcases when_any_foldl_done_index out rest _ h1.1 with ⟨_, h2⟩
    rw [h2, h1.2]
  · intro v hv
    rw [when_any_run, List.foldl_cons,
      when_any_foldl_results_not_mem out rest _ j honce]
    simp [when_any_step, hv, when_any_init]

/-- C4 witness: two children, child 0 finishes first with value 7. -/
theorem when_any_winner_index_and_slot_witness :
    ((0 : Fin 2) ∉ ([1] : List (Fin 2))) ∧
    (when_any_run (fun i : Fin 2 =>
        (if i = 0 then .ret 7 else .ret 9 : BodyOutcome Nat)) [0, 1]).index = some 0 ∧
    ∀ v : Nat,
      (if (0 : Fin 2) = 0 then .ret 7 else .ret 9 : BodyOutcome Nat) = .ret v →
      (when_any_run (fun i : Fin 2 =>
        (if i = 0 then .ret 7 else .ret 9 : BodyOutcome Nat)) [0, 1]).results 0 = some v :=
  ⟨by decide,
    when_any_winner_index_and_slot
      (fun i : Fin 2 => (if i = 0 then .ret 7 else .ret 9 : BodyOutcome Nat))
      0 [1] (by decide)⟩

/-- A when_any execution over two immediate children on one scheduler
thread: child 0 returns 7 and wins the CAS; child 1 throws while the parent
resumption is still queued behind it, so its catch block fills the empty
shared exception slot. -/
def out_c5 : Fin 2 → BodyOutcome Nat :=
  fun i => if i = 0 then .ret 7 else .thr (.userExn 42)

/-- C5 counterexample: in the run of out_c5 with completion order 0 then 1,
the winner (index 0) completed with value 7, yet await_resume rethrows the
exception of the losing child 1 — refuting the claim that an exception
thrown by a losing child is never surfaced and that a winner with a value
is returned without throwing. -/
theorem when_any_loser_exception_surfaced :
    (when_any_run out_c5 [0, 1]).index = some 0 ∧
    out_c5 0 = .ret 7 ∧
    (when_any_run out_c5 [0, 1]).results 0 = some 7 ∧
    when_any_resume (when_any_run out_c5 [0, 1]) = .error (.userExn 42) :=
  ⟨rfl, rfl, rfl, rfl⟩

/-- C5 amended: resuming the when_any awaiter rethrows an exception iff
some child that completed before the resume threw; the rethrown exception
is the first one captured in completion order — possibly from a losing
child — and only when no completed child threw are the winning index and
slots returned without throwing. -/
theorem when_any_resume_first_captured
    (out : (i : Fin n) → BodyOutcome (sigma i)) (order : List (Fin n)) :
    when_any_resume (when_any_run out order) =
      match first_exn out order with
      | some e => .error e
      | none => .ok ((when_any_run out order).index,
                     (when_any_run out order).results) := by
  have hex : (when_any_run out order).ex = first_exn out order := by
    rw [when_any_run, when_any_foldl_ex]
    rfl
  rw [when_any_resume, hex]

/-- C6 (code bug): starting async_wait on an empty pending FIFO registers a
waiter whose awaitable sig field is 0; when the worker then delivers signal
2, the posted step pushes 2 back onto the pending FIFO and resumes the
waiter, whose await_resume returns the stale sig field — the task produces
0, not the delivered signal number 2, which stays buffered. (The buffered
path, third conjunct, does produce the delivered number.) -/
theorem signal_suspended_waiter_produces_zero :
    async_wait_start signal_init = .suspended ⟨[], true, 0⟩ ∧
    await_then_deliver signal_init 2 = some 0 ∧
    (deliver_signal ⟨[], true, 0⟩ 2).st.pending = [2] ∧
    await_then_deliver ⟨[2], false, 0⟩ 7 = some 2 :=
  ⟨rfl, rfl, rfl, rfl⟩

/-- C7: jobs posted from one thread are dequeued by run() in their post
order, whatever jobs other threads interleave: for any lock-serialized
post sequence whose projection onto thread t is v1..vn, the projection of
the dequeue order onto thread t is again v1..vn. -/
theorem scheduler_single_thread_fifo
    (events : List sched_job) (t : Nat) (vs : List Nat)
    (h : (events.filter fun j => j.tid == t).map sched_job.val = vs) :
    ((post_all ⟨[], true⟩ events).run).map
        (fun ex => (ex.filter fun j => j.tid == t).map sched_job.val)
      = some vs := by
  have hq := post_all_q events ⟨[], true⟩
  rw [Sched.run, hq.1, hq.2, List.nil_append, run_queue_drains]
  simpa using h

/-- C7 witness: thread 1 posts 10 then 20, thread 2 posts 99 in between. -/
theorem scheduler_single_thread_fifo_witness :
    (([⟨1, 10⟩, ⟨2, 99⟩, ⟨1, 20⟩] : List sched_job).filter
        (fun j => j.tid == 1)).map sched_job.val = [10, 20] ∧
    ((post_all ⟨[], true⟩ [⟨1, 10⟩, ⟨2, 99⟩, ⟨1, 20⟩]).run).map
        (fun ex => (ex.filter fun j => j.tid == 1).map sched_job.val)
      = some [10, 20] :=
  ⟨by decide,
    scheduler_single_thread_fifo [⟨1, 10⟩, ⟨2, 99⟩, ⟨1, 20⟩] 1 [10, 20] (by decide)⟩

/-- C8: the timer worker posts an entry only at a steady-clock read t that
has reached the entry deadline, so a coroutine suspended by sleep_for(d) at
clock value now0 (deadline now0 + d, scheduled through after) is never
resumed before d has elapsed. -/
theorem sleep_for_never_resumes_early
    (samples : List Nat) (cur : Option TimerEntry) (q : List TimerEntry)
    (t : Nat) (e : TimerEntry)
    (hmem : (t, e) ∈ timer_run samples cur q) :
    e.dl ≤ t ∧
    ∀ now0 d idn c, e = after_entry now0 d idn c → now0 + d ≤ t := by
  refine ⟨timer_run_dl_le samples cur q t e hmem, ?_⟩
  intro now0 d idn c hE
  have hle := timer_run_dl_le samples cur q t e hmem
  rw [hE] at hle
  exact hle

/-- C8 witness: an entry scheduled at clock 4 for 6 later (deadline 10); the
worker samples the clock at 3 (too early, waits) and then at 12, posting at
12 ≥ 10. -/
theorem sleep_for_never_resumes_early_witness :
    ((12, after_entry 4 6 1 false)
        ∈ timer_run [3, 12] none [after_entry 4 6 1 false]) ∧
    (after_entry 4 6 1 false).dl ≤ 12 ∧
    ∀ now0 d idn c, after_entry 4 6 1 false = after_entry now0 d idn c →
      now0 + d ≤ 12 :=
  ⟨by decide,
    sleep_for_never_resumes_early [3, 12] none [after_entry 4 6 1 false]
      12 (after_entry 4 6 1 false) (by decide)⟩

/-- C9: when the worker observes the cancel token already cancelled before
running fn, fn is never invoked and awaiting the submitted task fails with
a system_error carrying errc::canceled. -/
theorem submit_cancelled_never_runs_fn {R : Type u} (fn : BodyOutcome R) :
    (submit_work true fn).invoked = false ∧
    submit_await_resume (submit_work true fn)
      = .error (.systemError (make_error_code Errc.canceled)) :=
  ⟨rfl, rfl⟩

/-- C10: a thread pool constructed with a thread count of 0 (also what
hardware_concurrency can report) silently clamps to one worker thread:
size() returns 1 and submitted jobs are still all executed. -/
theorem thread_pool_zero_threads_one_worker
    (threads : Nat) (h : threads = 0) :
    (mk_thread_pool threads).size = 1 ∧
    ∀ jobs : List Nat, (mk_thread_pool threads).exec jobs = jobs := by
  subst h
  refine ⟨rfl, fun jobs => ?_⟩
  rw [ThreadPool.exec]
  rw [if_neg (by decide : ¬(mk_thread_pool 0).workers = [])]
  exact worker_drain_id jobs

/-- C10 witness: the clamp applied at count 0 with a three-job queue. -/
theorem thread_pool_zero_threads_one_worker_witness :
    (mk_thread_pool 0).size = 1 ∧
    ∀ jobs : List Nat, (mk_thread_pool 0).exec jobs = jobs :=
  thread_pool_zero_threads_one_worker 0 rfl

end VixAsync
